import Mathlib

/-!
Verification of package `simple` (code.nkcmr.net/simple): a closed, schema-less
value representation mirroring JSON's type set, together with a reflective
conversion engine `FromValue` that reduces arbitrary Go values to that
representation, and a JSON bridge `FromJSON`.

The Go source (`simple.go`) is shallowly embedded below:

* `Value` embeds the Go interface `Value` with its five implementations
  `Struct`, `Array`, `Number`, `String`, `Bool`.  A Go `Value` variable is
  nilable, so wherever the source manipulates a possibly-nil `Value` the
  embedding uses `Option Value` (`none` = Go `nil`).
* `GoValue` embeds the universe of Go runtime values that
  `fromReflectValue` can encounter after its `reflect.ValueOf(rv.Interface())`
  normalisation step: nil interface values, pointers (possibly nil), structs
  (field lists with exportedness flags), maps (a key type descriptor plus the
  entry sequence in iteration order), arrays/slices, strings, integers,
  unsigned integers, floats, booleans, values whose dynamic type implements
  one of the two `SimpleValue` override hooks, and values of kinds the engine
  does not support (channels, funcs, complex numbers, unsafe pointers).
* `fromReflectValue` embeds the Go function of the same name, including its
  two `panic` sites (the depth guard and the `reflect.Value.Type` panic that
  fires when the value normalisation step produced the zero `reflect.Value`,
  i.e. when a non-root nil interface value is encountered).  Panics are
  modelled as the `FvStep.fatal` outcome, errors as `FvStep.err`.
-/

namespace Simple

/-- Go `reflect.Kind`, restricted to the kinds that can appear as a map key
type in this development (the engine only inspects the kind of map key types
through `stringify`; every other kind dispatch happens on the shape of the
value itself and is captured by the `GoValue` constructors). -/
inductive GoKind where
  | bool | int | int8 | int16 | int32 | int64
  | uint | uint8 | uint16 | uint32 | uint64 | uintptr
  | float32 | float64
  | array | chan | func | iface | map | ptr | slice | string | struct
  | complex64 | complex128 | rawptr
deriving DecidableEq

/-- `reflect.Kind.String()`. -/
def GoKind.toGoString : GoKind → String
  | .bool => "bool"
  | .int => "int" | .int8 => "int8" | .int16 => "int16"
  | .int32 => "int32" | .int64 => "int64"
  | .uint => "uint" | .uint8 => "uint8" | .uint16 => "uint16"
  | .uint32 => "uint32" | .uint64 => "uint64" | .uintptr => "uintptr"
  | .float32 => "float32" | .float64 => "float64"
  | .array => "array" | .chan => "chan" | .func => "func"
  | .iface => "interface" | .map => "map" | .ptr => "ptr"
  | .slice => "slice" | .string => "string" | .struct => "struct"
  | .complex64 => "complex64" | .complex128 => "complex128"
  | .rawptr => "unsafe.Pointer"

/-- A Go type as the engine observes it for map keys: its `reflect.Kind` and
its `reflect.Type.String()` name (e.g. kind `array`, name `"simple.mk"`). -/
structure GoType where
  kind : GoKind
  name : String
deriving DecidableEq

/-- The kinds that reach `fromReflectValue`'s `default` branch ("unsupported
kind"): after the `reflect.ValueOf(rv.Interface())` normalisation the value's
kind is concrete, so the unhandled kinds are exactly chan, func, the complex
kinds and unsafe pointers. -/
inductive UnsupKind where
  | chan | func | complex64 | complex128 | rawptr
deriving DecidableEq

def UnsupKind.toGoString : UnsupKind → String
  | .chan => "chan" | .func => "func"
  | .complex64 => "complex64" | .complex128 => "complex128"
  | .rawptr => "unsafe.Pointer"

/-- The Go `Value` interface: `Struct` (string-keyed mapping, represented as
the association list of its entries; Go's map is unordered so the list order
carries no meaning), `Array` (ordered sequence), `Number` (float64),
`String`, `Bool`.  Entries and elements hold a nilable `Value`, hence
`Option Value`. -/
inductive Value where
  | structV : List (String × Option Value) → Value
  | arrayV : List (Option Value) → Value
  | number : Float → Value
  | str : String → Value
  | boolV : Bool → Value

/-- A map key value.  `other` stands for a key of a non-stringifiable type
(array, struct, ...): the engine rejects the map before ever reading such a
key, so its payload is irrelevant. -/
inductive GoKeyVal where
  | s : String → GoKeyVal
  | b : Bool → GoKeyVal
  | i : Int → GoKeyVal
  | u : Nat → GoKeyVal
  | f : Float → GoKeyVal
  | other : GoKeyVal

/-- A Go runtime value as seen by `fromReflectValue` (see the module
docstring).  `hook1`/`hook2` are values whose dynamic type implements
`SimpleValue() Value` resp. `SimpleValue() (Value, error)`; they carry the
hook's result together with the value's underlying structure (which the
engine must never traverse).  A hook error is modelled by the string returned
by its `Error()` method. -/
inductive GoValue where
  | nilInterface : GoValue
  | hook1 : Option Value → GoValue → GoValue
  | hook2 : Except String (Option Value) → GoValue → GoValue
  | ptrV : Option GoValue → GoValue
  | structV : List (String × Bool × GoValue) → GoValue
  | mapV : GoType → List (GoKeyVal × GoValue) → GoValue
  | arrayV : List GoValue → GoValue
  | strV : String → GoValue
  | intV : Int → GoValue
  | uintV : Nat → GoValue
  | floatV : Float → GoValue
  | boolV : Bool → GoValue
  | unsup : UnsupKind → GoValue

end Simple

namespace Simple

/-- Models Go's `fmt.Sprintf("%v", f)` for a float64.  The exact rendering
algorithm lives in the Go runtime; no claim in this development depends on
the rendered text of a float key, only on the fact that float keys stringify
successfully. -/
def goFormatFloat (x : Float) : String := x.toString

/-- `v.Convert(builtinString)` applied to a key of kind string. -/
def goKeyString : GoKeyVal → String
  | .s v => v
  | _ => ""

/-- The bool key stringifier from `stringify`. -/
def goKeyBool : GoKeyVal → String
  | .b true => "true"
  | .b false => "false"
  | _ => ""

/-- `strconv.FormatInt(v.Convert(builtinInt64), 10)`. -/
def goKeyInt : GoKeyVal → String
  | .i n => toString n
  | _ => ""

/-- `strconv.FormatUint(v.Convert(builtinUint64), 10)`. -/
def goKeyUint : GoKeyVal → String
  | .u n => toString n
  | _ => ""

/-- `fmt.Sprintf("%v", v.Interface())` for float keys. -/
def goKeyFloat : GoKeyVal → String
  | .f x => goFormatFloat x
  | _ => ""

/-- `stringify` from `simple.go`: returns a key stringifier for key types of
kind string, bool, any signed or unsigned integer width (incl. uintptr), or
any float width; `none` for every other kind.  (The impossible constructor
mismatches inside each stringifier — e.g. a bool payload under a string
kind — cannot arise from Go's type system; they return `""`.) -/
def stringify (rt : GoType) : Option (GoKeyVal → String) :=
  match rt.kind with
  | .string => some goKeyString
  | .bool => some goKeyBool
  | .int | .int8 | .int16 | .int32 | .int64 => some goKeyInt
  | .uint | .uint8 | .uint16 | .uint32 | .uint64 | .uintptr => some goKeyUint
  | .float32 | .float64 => some goKeyFloat
  | _ => none

/-- A conversion error: `plain p s` embeds `fromValueError{path: p, problem: s}`
and `wrapped p s` embeds `fromValueWrappedError{path: p, error: e}` where `s`
is `e.Error()`. -/
inductive FvError where
  | plain : List String → String → FvError
  | wrapped : List String → String → FvError
deriving DecidableEq

def FvError.path : FvError → List String
  | .plain p _ => p
  | .wrapped p _ => p

/-- The `<problem>` part of the rendered message: the `problem` field for a
direct error, the wrapped error's `Error()` text for a wrapped one. -/
def FvError.problemText : FvError → String
  | .plain _ s => s
  | .wrapped _ s => s

/-- `Error()` of both error types: `fmt.Sprintf("cannot convert value at %s: %s",
strings.Join(f.path, ""), ...)` — the path segments are concatenated with no
separator. -/
def FvError.render (e : FvError) : String :=
  "cannot convert value at " ++ String.join e.path ++ ": " ++ e.problemText

/-- `Unwrap()`: a wrapped error exposes its cause; a direct error wraps
nothing. -/
def FvError.cause : FvError → Option String
  | .plain _ _ => none
  | .wrapped _ s => some s

/-- Outcome of a conversion step: a normal return (payload plus `error = nil`),
an error return, or a Go panic carrying the panic message. -/
inductive FvStep (α : Type) where
  | ok : α → FvStep α
  | err : FvError → FvStep α
  | fatal : String → FvStep α

/-- The result type of `fromReflectValue`: a nilable `Value` or an error (or
a panic). -/
abbrev FvResult := FvStep (Option Value)

/-- Go's `fmt.Sprintf("%v", path)` for a `[]string`. -/
def goStrSliceFmt (l : List String) : String :=
  "[" ++ String.intercalate " " l ++ "]"

/-- The depth-guard panic message:
`fmt.Sprintf("fromReflectValue: value too deep, path: %v", path)`. -/
def tooDeepMsg (path : List String) : String :=
  "fromReflectValue: value too deep, path: " ++ goStrSliceFmt path

/-- The panic raised by `rv.Type()` when `rv` is the zero `reflect.Value`
(which `rv = reflect.ValueOf(rv.Interface())` produces from a non-root nil
interface value). -/
def zeroValueTypeMsg : String :=
  "reflect: call of reflect.Value.Type on zero Value"

/-- The Go map assignment `outstruct[keystr] = goodValue` on the
association-list representation of a `Struct`: it overwrites the existing
binding for the key if there is one, otherwise adds a new binding. -/
def mapAssign : List (String × Option Value) → String → Option Value →
    List (String × Option Value)
  | [], k, v => [(k, v)]
  | (k2, v2) :: t, k, v =>
      if k2 = k then (k, v) :: t else (k2, v2) :: mapAssign t k v

mutual

/-- `fromReflectValue(rv, path)` from `simple.go`.

Branch order follows the source: the `SimpleValue` hook type switch runs
first (before the depth guard); then `reflect.ValueOf(rv.Interface())`
re-normalises the value (modelled structurally: a nil interface value becomes
the invalid zero `reflect.Value`); then the depth guard
(`len(path) >= 1000` panics); then `rt := rv.Type()` (which panics on the
zero value); then the kind switch. -/
def fromReflectValue : GoValue → List String → FvResult
  | .hook1 r _, _ => .ok r
  | .hook2 (.ok r) _, _ => .ok r
  | .hook2 (.error e) _, path => .err (.wrapped path e)
  | .nilInterface, path =>
      if 1000 ≤ path.length then .fatal (tooDeepMsg path)
      else .fatal zeroValueTypeMsg
  | .ptrV t, path =>
      if 1000 ≤ path.length then .fatal (tooDeepMsg path)
      else
        match t with
        | none => .ok none
        | some g => fromReflectValue g path
  | .structV fields, path =>
      if 1000 ≤ path.length then .fatal (tooDeepMsg path)
      else
        match fvFields fields path with
        | .ok l => .ok (some (.structV l))
        | .err e => .err e
        | .fatal m => .fatal m
  | .mapV kt entries, path =>
      if 1000 ≤ path.length then .fatal (tooDeepMsg path)
      else
        match stringify kt with
        | none =>
            .err (.plain path
              ("map key with " ++ kt.kind.toGoString ++ " type \"" ++ kt.name
                ++ "\" cannot be stringified"))
        | some keytostr =>
            match fvEntries keytostr entries path [] with
            | .ok l => .ok (some (.structV l))
            | .err e => .err e
            | .fatal m => .fatal m
  | .arrayV elems, path =>
      if 1000 ≤ path.length then .fatal (tooDeepMsg path)
      else
        match fvElems elems 0 path with
        | .ok l => .ok (some (.arrayV l))
        | .err e => .err e
        | .fatal m => .fatal m
  | .strV s, path =>
      if 1000 ≤ path.length then .fatal (tooDeepMsg path)
      else .ok (some (.str s))
  | .intV n, path =>
      if 1000 ≤ path.length then .fatal (tooDeepMsg path)
      else .ok (some (.number (Float.ofInt n)))
  | .uintV n, path =>
      if 1000 ≤ path.length then .fatal (tooDeepMsg path)
      else .ok (some (.number (Float.ofNat n)))
  | .floatV x, path =>
      if 1000 ≤ path.length then .fatal (tooDeepMsg path)
      else .ok (some (.number x))
  | .boolV b, path =>
      if 1000 ≤ path.length then .fatal (tooDeepMsg path)
      else .ok (some (.boolV b))
  | .unsup k, path =>
      if 1000 ≤ path.length then .fatal (tooDeepMsg path)
      else
        .err (.plain path
          ("cannot convert value of kind " ++ k.toGoString ++ " to simple value"))

/-- The struct-field loop: unexported fields are skipped; each exported field
is converted at `append(path, ".", key)`; the first error or panic aborts the
loop. -/
def fvFields : List (String × Bool × GoValue) → List String →
    FvStep (List (String × Option Value))
  | [], _ => .ok []
  | (name, exported, v) :: rest, path =>
      if exported then
        match fromReflectValue v (path ++ [".", name]) with
        | .ok val =>
            match fvFields rest path with
            | .ok l => .ok ((name, val) :: l)
            | .err e => .err e
            | .fatal m => .fatal m
        | .err e => .err e
        | .fatal m => .fatal m
      else fvFields rest path

/-- The map-entry loop (`mapiter`): the input list fixes the iteration order;
each value is converted at `append(path, ".", keystr)`, and the write
`outstruct[keystr] = goodValue` is a Go map assignment into the accumulated
struct (`mapAssign`), so a later entry whose key stringifies identically to
an earlier one overwrites it — last write wins, as for NaN float64 keys,
which all stringify to the same text. -/
def fvEntries : (GoKeyVal → String) → List (GoKeyVal × GoValue) → List String →
    List (String × Option Value) → FvStep (List (String × Option Value))
  | _, [], _, outstruct => .ok outstruct
  | keytostr, (k, v) :: rest, path, outstruct =>
      match fromReflectValue v (path ++ [".", keytostr k]) with
      | .ok val => fvEntries keytostr rest path (mapAssign outstruct (keytostr k) val)
      | .err e => .err e
      | .fatal m => .fatal m

/-- The array/slice element loop: element `i` is converted at
`append(path, fmt.Sprintf("[%d]", i))`. -/
def fvElems : List GoValue → Nat → List String → FvStep (List (Option Value))
  | [], _, _ => .ok []
  | v :: rest, i, path =>
      match fromReflectValue v (path ++ ["[" ++ Nat.repr i ++ "]"]) with
      | .ok val =>
          match fvElems rest (i + 1) path with
          | .ok l => .ok (val :: l)
          | .err e => .err e
          | .fatal m => .fatal m
      | .err e => .err e
      | .fatal m => .fatal m

end

/-- `FromValue(v)`: `reflect.ValueOf(nil)` is the invalid zero value, which
the `!rv.IsValid()` entry check turns into `(nil, nil)`; any other input is
converted at the empty root path. -/
def FromValue : Option GoValue → FvResult
  | none => .ok none
  | some g => fromReflectValue g []

end Simple

namespace Simple

/-- Whether the value's dynamic type implements one of the two `SimpleValue`
override hooks (the type switch at the top of `fromReflectValue`). -/
def isHook : GoValue → Bool
  | .hook1 _ _ => true
  | .hook2 _ _ => true
  | _ => false

/-- A node in an addressed heap of Go values.  The tree type `GoValue` cannot
represent cyclic data, but `reflect` values can be cyclic (e.g.
`type P *P; var p P; p = &p`), so for termination questions the pointer
fragment of the engine is modelled over a heap: a pointer holds the address
of its pointee.  `boolG` is a representative leaf kind. -/
inductive GNode where
  | ptrTo : Option Nat → GNode
  | boolG : Bool → GNode

/-- `fromReflectValue` over the heap model, restricted to the pointer and
bool kinds, with an explicit step budget: `none` means the computation has
not finished within `fuel` steps.  Branch structure follows the source: the
depth guard (`len(path) >= 1000`) runs first, then the kind switch; a nil
pointer yields `(nil, nil)`; dereferencing recurses on the pointee *at the
same path* (dereferencing does not extend the path). -/
def fromReflectValueCyc (heap : Nat → GNode) : Nat → GNode → List String → Option FvResult
  | 0, _, _ => none
  | fuel + 1, g, path =>
      if 1000 ≤ path.length then some (.fatal (tooDeepMsg path))
      else
        match g with
        | .boolG b => some (.ok (some (.boolV b)))
        | .ptrTo none => some (.ok none)
        | .ptrTo (some a) => fromReflectValueCyc heap fuel (heap a) path

/-- The self-referential pointer heap: address 0 holds a pointer to itself
(the Go value `type P *P; var p P; p = &p`). -/
def selfPtrHeap : Nat → GNode := fun _ => .ptrTo (some 0)

/-- A struct nested `n` levels deep (each level one exported field `F`), with
a bool at the bottom: the Go type `type T struct{ F *T }`-style nesting used
to probe the depth ceiling. -/
def nestedStruct : Nat → GoValue
  | 0 => .boolV true
  | n + 1 => .structV [("F", true, nestedStruct n)]

/-- Two `GoValue` terms denote the same Go value when they differ only in the
recorded map iteration order: the model fixes each map's range order as its
entry list, while Go randomizes it, so one Go map value is denoted by every
permutation of its entry list.  Only the root-level permutation case is
needed below; the relation is deliberately a fragment of full structural
equality, so everything it relates is certainly structurally equal. -/
inductive SameGo : GoValue → GoValue → Prop where
  | refl (g : GoValue) : SameGo g g
  | mapPerm {kt : GoType} {e1 e2 : List (GoKeyVal × GoValue)} :
      e1.Perm e2 → SameGo (.mapV kt e1) (.mapV kt e2)

/-- The conversion of a single map entry: its value converted at the path
extended by `"."` and the stringified key.  The extension depends only on
the entry, not on its position in the iteration order. -/
def entryRes (keytostr : GoKeyVal → String) (path : List String)
    (p : GoKeyVal × GoValue) : FvResult :=
  fromReflectValue p.2 (path ++ [".", keytostr p.1])

/-- The payload of a successful conversion (`none` for errors/panics). -/
def okValue : FvResult → Option Value
  | .ok v => v
  | .err _ => none
  | .fatal _ => none

/-- An abstract JSON document tree: the interface between the `simple`
package and the external `encoding/json` collaborator (the byte-level
grammar is the parser's concern and out of scope; malformed input never
reaches `fastFromValue`). -/
inductive Json where
  | obj : List (String × Json) → Json
  | arr : List Json → Json
  | num : Float → Json
  | str : String → Json
  | boolJ : Bool → Json
  | null : Json

/-- The shapes `json.Unmarshal` stores into an `any` destination:
`map[string]any`, `[]any`, `float64`, `string`, `bool`, and nil — exactly
the cases of `fastFromValue`'s type switch. -/
inductive AnyV where
  | mapA : List (String × AnyV) → AnyV
  | arrA : List AnyV → AnyV
  | num : Float → AnyV
  | str : String → AnyV
  | boolA : Bool → AnyV
  | nullA : AnyV

/-- Insert a keyed pair into a key-sorted association list (ascending). -/
def insertKey {α : Type} : (String × α) → List (String × α) → List (String × α)
  | p, [] => [p]
  | p, q :: t => if p.1 ≤ q.1 then p :: q :: t else q :: insertKey p t

/-- Sort an association list by key, ascending (insertion sort).  Models
`json.Marshal`'s documented behavior of emitting map entries in sorted key
order, and serves as the canonical entry order for key-order-insensitive
Struct equality. -/
def sortKeys {α : Type} : List (String × α) → List (String × α)
  | [] => []
  | p :: t => insertKey p (sortKeys t)

mutual

/-- Models `json.Marshal` on a nilable `Value` (`mustJSONEncodeValue`'s
encoder): a `Struct` marshals as an object with entries in sorted key order
(Go maps are unordered; `json.Marshal` sorts map keys), an `Array` as an
array in element order, scalars as themselves, and a nil `Value` as
`null`. -/
def marshalValue : Option Value → Json
  | none => .null
  | some (.structV fields) => .obj (sortKeys (marshalFields fields))
  | some (.arrayV elems) => .arr (marshalElems elems)
  | some (.number x) => .num x
  | some (.str s) => .str s
  | some (.boolV b) => .boolJ b

def marshalFields : List (String × Option Value) → List (String × Json)
  | [] => []
  | (k, v) :: t => (k, marshalValue v) :: marshalFields t

def marshalElems : List (Option Value) → List Json
  | [] => []
  | v :: t => marshalValue v :: marshalElems t

end

mutual

/-- Models `json.Unmarshal` into `any`, as used by `FromJSON`: objects
become `map[string]any`, arrays `[]any`, numbers `float64`, etc. -/
def unmarshalAny : Json → AnyV
  | .obj fields => .mapA (unmFields fields)
  | .arr elems => .arrA (unmElems elems)
  | .num x => .num x
  | .str s => .str s
  | .boolJ b => .boolA b
  | .null => .nullA

def unmFields : List (String × Json) → List (String × AnyV)
  | [] => []
  | (k, j) :: t => (k, unmarshalAny j) :: unmFields t

def unmElems : List Json → List AnyV
  | [] => []
  | j :: t => unmarshalAny j :: unmElems t

end

mutual

/-- `fastFromValue` from `simple.go`: converts the untyped output of a JSON
unmarshal to a `Value` (`map[string]any` → Struct, `[]any` → Array,
`float64` → Number, `string` → String, `bool` → Bool, nil → nil).  The
source's `default: panic` branch is unreachable here: `AnyV` is exactly the
image of `json.Unmarshal` into `any`. -/
def fastFromValue : AnyV → Option Value
  | .mapA kvs => some (.structV (fastFields kvs))
  | .arrA xs => some (.arrayV (fastElems xs))
  | .num x => some (.number x)
  | .str s => some (.str s)
  | .boolA b => some (.boolV b)
  | .nullA => none

def fastFields : List (String × AnyV) → List (String × Option Value)
  | [] => []
  | (k, v) :: t => (k, fastFromValue v) :: fastFields t

def fastElems : List AnyV → List (Option Value)
  | [] => []
  | v :: t => fastFromValue v :: fastElems t

end

/-- `FromJSON` once the external parser has produced the document tree `j`:
`json.Unmarshal` into `any`, then `fastFromValue` (a syntax error is the
only other outcome of `FromJSON` and never reaches this code path). -/
def FromJSONDoc (j : Json) : Option Value := fastFromValue (unmarshalAny j)

mutual

/-- Canonicalizes Struct entry order, recursively sorting every Struct's
entries by key and leaving Array element order untouched: two Values are
structurally equal ignoring Struct key order exactly when their
canonicalizations coincide. -/
def normalizeV : Option Value → Option Value
  | none => none
  | some (.structV fields) => some (.structV (sortKeys (normFields fields)))
  | some (.arrayV elems) => some (.arrayV (normElems elems))
  | some (.number x) => some (.number x)
  | some (.str s) => some (.str s)
  | some (.boolV b) => some (.boolV b)

def normFields : List (String × Option Value) → List (String × Option Value)
  | [] => []
  | (k, v) :: t => (k, normalizeV v) :: normFields t

def normElems : List (Option Value) → List (Option Value)
  | [] => []
  | v :: t => normalizeV v :: normElems t

end

/-- Pairwise key order for association lists. -/
def keyLE {α : Type} (p q : String × α) : Prop := p.1 ≤ q.1

/-- C1: the spec requires every nil pointer and nil interface value —
anywhere in the input — to convert to absence with no error.  The code does
so only for nil pointers and for a nil interface at the root: a nil
interface value in a non-root position (here: the sole element of a slice,
i.e. the Go input `[]any{nil}`) reaches
`rv = reflect.ValueOf(rv.Interface())`, which yields the zero
`reflect.Value`, and the subsequent `rv.Type()` call panics. -/
theorem c1_nested_nil_interface_fatal :
    fromReflectValue (.arrayV [.nilInterface]) [] = .fatal zeroValueTypeMsg := rfl

/-- C2 counterexample: the claim asserts that a map whose key type is a
floating-point kind fails to convert, but `stringify` accepts float32 and
float64 key kinds, so the conversion of a (here empty) `map[float64]...`
succeeds with an empty Struct instead of failing. -/
theorem c2_float_key_counterexample :
    fromReflectValue (.mapV ⟨.float64, "float64"⟩ []) [] =
      .ok (some (.structV [])) := rfl

/-- C2 (amended): a map key type is stringifiable exactly when its kind is
string, bool, an integer width (signed or unsigned, incl. uintptr), or a
float width; for every other key kind the conversion fails at the current
path with message `map key with <kind> type "<type-name>" cannot be
stringified`; and on the nested test input
`map[int]any{5: a{M: map[mk]string{...}}, 10: false}` the failing path
includes the enclosing key segments, rendering as `.5.M`. -/
theorem c2_amended :
    (∀ kt : GoType, (stringify kt).isSome = true ↔
      kt.kind ∈ [GoKind.string, .bool, .int, .int8, .int16, .int32, .int64,
        .uint, .uint8, .uint16, .uint32, .uint64, .uintptr, .float32, .float64])
    ∧ (∀ (kt : GoType) (entries : List (GoKeyVal × GoValue)) (path : List String),
        stringify kt = none → path.length < 1000 →
        fromReflectValue (.mapV kt entries) path =
          .err (.plain path ("map key with " ++ kt.kind.toGoString ++ " type \""
            ++ kt.name ++ "\" cannot be stringified")))
    ∧ (∃ e : FvError,
        fromReflectValue (.mapV ⟨.int, "int"⟩
          [(.i 5, .structV [("M", true,
              .mapV ⟨.array, "simple.mk"⟩ [(.other, .strV "cool?")])]),
           (.i 10, .boolV false)]) [] = .err e
        ∧ e.render =
          "cannot convert value at .5.M: map key with array type \"simple.mk\" cannot be stringified") := by
  refine ⟨?_, ?_, ?_⟩
  · rintro ⟨k, n⟩
    cases k <;> simp [stringify]
  · intro kt entries path h hl
    simp only [fromReflectValue]
    rw [if_neg (by omega), h]
  · exact ⟨.plain [".", "5", ".", "M"]
      "map key with array type \"simple.mk\" cannot be stringified", rfl, by decide⟩

/-- Witness for the amended C2, instantiated at the test's inner map key type
`simple.mk` (kind array). -/
theorem c2_amended_witness :
    fromReflectValue (.mapV ⟨.array, "simple.mk"⟩ [(.other, .strV "cool?")]) [] =
      .err (.plain [] ("map key with " ++ GoKind.array.toGoString ++ " type \""
        ++ "simple.mk" ++ "\" cannot be stringified")) :=
  c2_amended.2.1 ⟨.array, "simple.mk"⟩ [(.other, .strV "cool?")] [] rfl (by decide)

/-- C4: when the input implements `SimpleValue() Value` or
`SimpleValue() (Value, error)`, the engine returns exactly the hook's output,
independent of the value's underlying structure `u` (no traversal happens
beneath the hook); a hook error is wrapped with the current path, its cause
preserved (`Unwrap` returns it), and renders as
`cannot convert value at <path>: <hook error text>`. -/
theorem c4_hook_override :
    ∀ (r : Option Value) (u : GoValue) (msg : String) (path : List String),
      fromReflectValue (.hook1 r u) path = .ok r
      ∧ fromReflectValue (.hook2 (.ok r) u) path = .ok r
      ∧ fromReflectValue (.hook2 (.error msg) u) path = .err (.wrapped path msg)
      ∧ (FvError.wrapped path msg).cause = some msg
      ∧ (FvError.wrapped path msg).render =
          "cannot convert value at " ++ String.join path ++ ": " ++ msg :=
  fun _ _ _ _ => ⟨rfl, rfl, rfl, rfl, rfl⟩

/-- C5: a value of an unsupported kind fails with
`cannot convert value of kind <kind-name> to simple value` at the current
path (whenever the depth guard does not fire first), and the concrete test
input `map[string]any{"p": [1]chan int{...}}` yields exactly the error text
`cannot convert value at .p[0]: cannot convert value of kind chan to simple
value`. -/
theorem c5_unsupported_kind :
    (∀ (k : UnsupKind) (path : List String), path.length < 1000 →
      fromReflectValue (.unsup k) path =
        .err (.plain path
          ("cannot convert value of kind " ++ k.toGoString ++ " to simple value")))
    ∧ (∃ e : FvError,
        fromReflectValue
          (.mapV ⟨.string, "string"⟩ [(.s "p", .arrayV [.unsup .chan])]) [] = .err e
        ∧ e.render =
          "cannot convert value at .p[0]: cannot convert value of kind chan to simple value") := by
  refine ⟨?_, ?_⟩
  · intro k path hl
    simp only [fromReflectValue]
    rw [if_neg (by omega)]
  · exact ⟨.plain [".", "p", "[0]"]
      "cannot convert value of kind chan to simple value", rfl, by decide⟩

/-- Witness for C5 at an unsupported chan value at the root. -/
theorem c5_witness :
    fromReflectValue (.unsup .chan) [] =
      .err (.plain []
        ("cannot convert value of kind " ++ UnsupKind.chan.toGoString ++ " to simple value")) :=
  c5_unsupported_kind.1 .chan [] (by decide)

/-- C7: every error value `fromReflectValue` returns renders as
`cannot convert value at <path>: <problem>` with the path segments
concatenated with no separator, and a failure at the conversion root (empty
path) renders literally as `cannot convert value at : <problem>`. -/
theorem c7_error_message_format :
    (∀ (gv : GoValue) (path : List String) (e : FvError),
      fromReflectValue gv path = .err e →
      e.render = "cannot convert value at " ++ String.join e.path ++ ": " ++ e.problemText)
    ∧ fromReflectValue (.unsup .chan) [] =
        .err (.plain [] "cannot convert value of kind chan to simple value")
    ∧ (FvError.plain [] "cannot convert value of kind chan to simple value").render =
        "cannot convert value at : cannot convert value of kind chan to simple value" := by
  refine ⟨fun gv path e _ => ?_, rfl, by decide⟩
  cases e <;> rfl

/-- Witness for C7: the format equation instantiated at the root chan error. -/
theorem c7_witness :
    (FvError.plain [] "cannot convert value of kind chan to simple value").render =
      "cannot convert value at "
        ++ String.join (FvError.plain [] "cannot convert value of kind chan to simple value").path
        ++ ": "
        ++ (FvError.plain [] "cannot convert value of kind chan to simple value").problemText :=
  c7_error_message_format.1 (.unsup .chan) [] _ rfl

/-- C10 counterexample: the claim asserts every zero-element map converts to
an empty Struct, but an empty map whose key type is not stringifiable (here
`map[[1]int]int(nil)`) is rejected: `stringify` is consulted before the
entries are iterated. -/
theorem c10_empty_badkey_map_counterexample :
    fromReflectValue (.mapV ⟨.array, "[1]int"⟩ []) [] =
      .err (.plain [] "map key with array type \"[1]int\" cannot be stringified") := rfl

/-- C10 (amended): a nil or empty map whose key type is stringifiable
converts to the empty Struct, and a nil or empty slice converts to the empty
Array — never absence, never an error (below the depth guard); but a map
with an unstringifiable key type errors even when empty. -/
theorem c10_amended :
    (∀ (kt : GoType) (f : GoKeyVal → String) (path : List String),
        stringify kt = some f → path.length < 1000 →
        fromReflectValue (.mapV kt []) path = .ok (some (.structV [])))
    ∧ (∀ path : List String, path.length < 1000 →
        fromReflectValue (.arrayV []) path = .ok (some (.arrayV []))) := by
  refine ⟨?_, ?_⟩
  · intro kt f path h hl
    simp only [fromReflectValue]
    rw [if_neg (by omega), h]
    rfl
  · intro path hl
    simp only [fromReflectValue]
    rw [if_neg (by omega)]
    rfl

/-- Witness for the amended C10: the nil map `map[string]int(nil)` and the
nil slice `[]int(nil)`. -/
theorem c10_amended_witness :
    fromReflectValue (.mapV ⟨.string, "string"⟩ []) [] = .ok (some (.structV []))
    ∧ fromReflectValue (.arrayV []) [] = .ok (some (.arrayV [])) :=
  ⟨c10_amended.1 ⟨.string, "string"⟩ goKeyString [] rfl (by decide),
   c10_amended.2 [] (by decide)⟩

/-- C3: the claim (and spec) say `FromValue` terminates on every input, with
the depth guard turning runaway/cyclic structures into a fatal failure.  It
does not: dereferencing a pointer recurses at the *same* path, so the path
never grows along a pure pointer cycle and the depth guard never fires.  On
the self-referential pointer `type P *P; var p P; p = &p` the conversion
never completes, for any step budget. -/
theorem c3_self_pointer_diverges :
    ∀ fuel : Nat, fromReflectValueCyc selfPtrHeap fuel (.ptrTo (some 0)) [] = none := by
  intro fuel
  induction fuel with
  | zero => rfl
  | succ n ih => simpa [fromReflectValueCyc, selfPtrHeap] using ih

/-- Below the guard, a nested struct converts successfully; each level costs
two path segments. -/
theorem nestedStruct_ok :
    ∀ (n : Nat) (path : List String), path.length + 2 * n ≤ 999 →
      ∃ v, fromReflectValue (nestedStruct n) path = .ok (some v) := by
  intro n
  induction n with
  | zero =>
      intro path h
      refine ⟨.boolV true, ?_⟩
      simp only [nestedStruct, fromReflectValue]
      rw [if_neg (by omega)]
  | succ n ih =>
      intro path h
      have hlen : (path ++ [".", "F"]).length = path.length + 2 := by
        simp [List.length_append]
      obtain ⟨v, hv⟩ := ih (path ++ [".", "F"]) (by omega)
      refine ⟨.structV [("F", some v)], ?_⟩
      simp only [nestedStruct, fromReflectValue, fvFields]
      rw [if_neg (by omega)]
      simp [hv]

/-- Once the path would reach 1000 segments, a sufficiently nested struct
makes the depth guard fire. -/
theorem nestedStruct_fatal :
    ∀ (n : Nat) (path : List String), 1000 ≤ path.length + 2 * n →
      ∃ p, fromReflectValue (nestedStruct n) path = .fatal (tooDeepMsg p) := by
  intro n
  induction n with
  | zero =>
      intro path h
      refine ⟨path, ?_⟩
      simp only [nestedStruct, fromReflectValue]
      rw [if_pos (by omega)]
  | succ n ih =>
      intro path h
      by_cases hl : 1000 ≤ path.length
      · refine ⟨path, ?_⟩
        simp only [nestedStruct, fromReflectValue]
        rw [if_pos hl]
      · have hlen : (path ++ [".", "F"]).length = path.length + 2 := by
          simp [List.length_append]
        obtain ⟨p, hp⟩ := ih (path ++ [".", "F"]) (by omega)
        refine ⟨p, ?_⟩
        simp only [nestedStruct, fromReflectValue, fvFields]
        rw [if_neg hl]
        simp [hp]

/-- C9: a struct-field access and a map-entry access each append two path
segments (`"."` and the field name / stringified key), a sequence index
access appends one (`"[i]"`), the fatal depth guard fires exactly when the
path already holds at least 1000 segments (for every non-hook value — hooked
values return before the guard), and consequently the nesting ceiling for
field accesses is about 500 levels: a 499-deep struct converts, a 500-deep
one dies on the guard. -/
theorem c9_path_growth :
    (∀ (gv : GoValue) (path : List String), isHook gv = false → 1000 ≤ path.length →
        fromReflectValue gv path = .fatal (tooDeepMsg path))
    ∧ (∀ (name : String) (c : GoValue) (path : List String), path.length < 1000 →
        fromReflectValue (.structV [(name, true, c)]) path =
          match fromReflectValue c (path ++ [".", name]) with
          | .ok v => .ok (some (.structV [(name, v)]))
          | .err e => .err e
          | .fatal m => .fatal m)
    ∧ (∀ (kt : GoType) (f : GoKeyVal → String) (k : GoKeyVal) (c : GoValue)
          (path : List String),
        stringify kt = some f → path.length < 1000 →
        fromReflectValue (.mapV kt [(k, c)]) path =
          match fromReflectValue c (path ++ [".", f k]) with
          | .ok v => .ok (some (.structV [(f k, v)]))
          | .err e => .err e
          | .fatal m => .fatal m)
    ∧ (∀ (c : GoValue) (path : List String), path.length < 1000 →
        fromReflectValue (.arrayV [c]) path =
          match fromReflectValue c (path ++ ["[" ++ Nat.repr 0 ++ "]"]) with
          | .ok v => .ok (some (.arrayV [v]))
          | .err e => .err e
          | .fatal m => .fatal m)
    ∧ (∃ v, fromReflectValue (nestedStruct 499) [] = .ok (some v))
    ∧ (∃ p, fromReflectValue (nestedStruct 500) [] = .fatal (tooDeepMsg p)) := by
  refine ⟨?_, ?_, ?_, ?_, ?_, ?_⟩
  · intro gv path hh hl
    cases gv with
    | hook1 r u => exact Bool.noConfusion hh
    | hook2 r u => exact Bool.noConfusion hh
    | nilInterface => simp only [fromReflectValue]; rw [if_pos hl]
    | ptrV t => cases t <;> (simp only [fromReflectValue]; rw [if_pos hl])
    | structV fields => simp only [fromReflectValue]; rw [if_pos hl]
    | mapV kt entries => simp only [fromReflectValue]; rw [if_pos hl]
    | arrayV elems => simp only [fromReflectValue]; rw [if_pos hl]
    | strV s => simp only [fromReflectValue]; rw [if_pos hl]
    | intV n => simp only [fromReflectValue]; rw [if_pos hl]
    | uintV n => simp only [fromReflectValue]; rw [if_pos hl]
    | floatV x => simp only [fromReflectValue]; rw [if_pos hl]
    | boolV b => simp only [fromReflectValue]; rw [if_pos hl]
    | unsup k => simp only [fromReflectValue]; rw [if_pos hl]
  · intro name c path hl
    simp only [fromReflectValue, fvFields]
    rw [if_neg (by omega)]
    cases h : fromReflectValue c (path ++ [".", name]) <;> simp [h, fvFields]
  · intro kt f k c path hf hl
    simp only [fromReflectValue, fvEntries]
    rw [if_neg (by omega), hf]
    cases h : fromReflectValue c (path ++ [".", f k]) <;>
      simp [h, fvEntries, mapAssign]
  · intro c path hl
    simp only [fromReflectValue, fvElems]
    rw [if_neg (by omega)]
    cases h : fromReflectValue c (path ++ ["[" ++ Nat.repr 0 ++ "]"]) <;>
      simp [h, fvElems]
  · exact nestedStruct_ok 499 [] (by simp only [List.length_nil]; omega)
  · exact nestedStruct_fatal 500 [] (by simp only [List.length_nil]; omega)

/-- Witness for C9: the depth guard fired on a concrete 1000-segment path,
and the struct-field equation at a concrete field. -/
theorem c9_witness :
    fromReflectValue (.boolV true) (List.replicate 1000 "[0]") =
      .fatal (tooDeepMsg (List.replicate 1000 "[0]"))
    ∧ fromReflectValue (.structV [("F", true, .boolV true)]) [] =
        match fromReflectValue (.boolV true) (([] : List String) ++ [".", "F"]) with
        | .ok v => .ok (some (.structV [("F", v)]))
        | .err e => .err e
        | .fatal m => .fatal m :=
  ⟨c9_path_growth.1 (.boolV true) (List.replicate 1000 "[0]") rfl
      (by simp only [List.length_replicate]; omega),
   c9_path_growth.2.1 "F" (.boolV true) [] (by simp only [List.length_nil]; omega)⟩

/-- C8 counterexample: the two iteration orders of the single Go value
`map[string]chan int{"a": ..., "b": ...}` (both entries independently
failing) yield different errors — the failure path depends on which failing
entry the randomized map iteration reaches first, so two invocations on
structurally equal inputs need not produce the same error. -/
theorem c8_counterexample :
    SameGo
      (.mapV ⟨.string, "string"⟩ [(.s "a", .unsup .chan), (.s "b", .unsup .chan)])
      (.mapV ⟨.string, "string"⟩ [(.s "b", .unsup .chan), (.s "a", .unsup .chan)])
    ∧ fromReflectValue
        (.mapV ⟨.string, "string"⟩ [(.s "a", .unsup .chan), (.s "b", .unsup .chan)]) []
      ≠ fromReflectValue
        (.mapV ⟨.string, "string"⟩ [(.s "b", .unsup .chan), (.s "a", .unsup .chan)]) [] := by
  refine ⟨SameGo.mapPerm (List.Perm.swap _ _ _), ?_⟩
  intro h
  have h1 : fromReflectValue
      (.mapV ⟨.string, "string"⟩ [(.s "a", .unsup .chan), (.s "b", .unsup .chan)]) [] =
      .err (.plain [".", "a"] "cannot convert value of kind chan to simple value") := rfl
  have h2 : fromReflectValue
      (.mapV ⟨.string, "string"⟩ [(.s "b", .unsup .chan), (.s "a", .unsup .chan)]) [] =
      .err (.plain [".", "b"] "cannot convert value of kind chan to simple value") := rfl
  rw [h1, h2] at h
  injection h with h3
  exact absurd h3 (by decide)

/-- A Go map assignment with a fresh key appends the binding: if `k` has no
binding in `acc`, `mapAssign acc k v = acc ++ [(k, v)]`. -/
theorem mapAssign_of_not_mem (k : String) (v : Option Value) :
    ∀ (acc : List (String × Option Value)), k ∉ acc.map Prod.fst →
      mapAssign acc k v = acc ++ [(k, v)] := by
  intro acc
  induction acc with
  | nil => intro _; rfl
  | cons q t ih =>
      intro hk
      obtain ⟨k2, v2⟩ := q
      simp only [List.map_cons, List.mem_cons, not_or] at hk
      simp only [mapAssign]
      rw [if_neg (fun h => hk.1 h.symm), ih hk.2]
      rfl

/-- If every entry of a map converts successfully, the entries' stringified
keys are pairwise distinct, and none collides with a key already written,
then the entry loop succeeds and extends the accumulated struct with the
per-entry results in iteration order. -/
theorem fvEntries_ok_of (keytostr : GoKeyVal → String) (path : List String) :
    ∀ (e : List (GoKeyVal × GoValue)) (acc : List (String × Option Value)),
      (∀ p ∈ e, ∃ v, entryRes keytostr path p = .ok v) →
      (∀ p ∈ e, keytostr p.1 ∉ acc.map Prod.fst) →
      (e.map fun p => keytostr p.1).Nodup →
      fvEntries keytostr e path acc =
        .ok (acc ++ e.map fun p => (keytostr p.1, okValue (entryRes keytostr path p))) := by
  intro e
  induction e with
  | nil =>
      intro acc _ _ _
      simp [fvEntries]
  | cons q rest ih =>
      intro acc hall hdisj hnodup
      obtain ⟨k, gv⟩ := q
      obtain ⟨v0, hv0⟩ := hall (k, gv) (List.mem_cons_self _ _)
      have hv0x : fromReflectValue gv (path ++ [".", keytostr k]) = .ok v0 := hv0
      have hnodup2 : (keytostr k :: rest.map fun p => keytostr p.1).Nodup := by
        simpa only [List.map_cons] using hnodup
      have hnd := List.nodup_cons.mp hnodup2
      have hdisj2 : ∀ p ∈ rest, keytostr p.1 ∉
          (acc ++ [(keytostr k, v0)]).map Prod.fst := by
        intro p hp
        simp only [List.map_append, List.mem_append, not_or]
        refine ⟨fun hmem => hdisj p (List.mem_cons_of_mem _ hp) hmem, ?_⟩
        simp only [List.map_cons, List.map_nil, List.mem_cons,
          List.not_mem_nil, or_false]
        intro heq
        exact hnd.1 (heq ▸ List.mem_map_of_mem _ hp)
      simp only [fvEntries, hv0x]
      rw [mapAssign_of_not_mem (keytostr k) v0 acc
        (hdisj (k, gv) (List.mem_cons_self _ _))]
      rw [ih (acc ++ [(keytostr k, v0)])
        (fun p hp => hall p (List.mem_cons_of_mem _ hp)) hdisj2 hnd.2]
      simp [entryRes, okValue, hv0x, List.append_assoc]

/-- If the entry loop succeeds, every entry converts successfully. -/
theorem fvEntries_all_ok (keytostr : GoKeyVal → String) (path : List String) :
    ∀ (e : List (GoKeyVal × GoValue)) (acc l : List (String × Option Value)),
      fvEntries keytostr e path acc = .ok l →
      ∀ p ∈ e, ∃ v, entryRes keytostr path p = .ok v := by
  intro e
  induction e with
  | nil => intro acc l _ p hp; cases hp
  | cons q rest ih =>
      intro acc l h p hp
      obtain ⟨k, gv⟩ := q
      simp only [fvEntries] at h
      cases h0 : fromReflectValue gv (path ++ [".", keytostr k]) with
      | ok val =>
          simp only [h0] at h
          rcases List.mem_cons.mp hp with hq | hq
          · exact hq ▸ ⟨val, h0⟩
          · exact ih (mapAssign acc (keytostr k) val) l h p hq
      | err e2 => simp only [h0] at h; exact FvStep.noConfusion h
      | fatal m => simp only [h0] at h; exact FvStep.noConfusion h

/-- C8 (amended): `FromValue` is a pure function of its input *and* the map
iteration order.  When the stringified keys of a map's entries are pairwise
distinct, a successful conversion is independent of the iteration order up
to Struct entry order: the same mapping results.  When two entries' keys
stringify identically — possible for NaN float64 keys, which all render as
the same text — the write `outstruct[keystr] = goodValue` makes the
last-iterated entry win, so even the successful output depends on the
iteration order (second conjunct); and which failing entry's error surfaces
likewise depends on the order (see the counterexample). -/
theorem c8_amended :
    (∀ (kt : GoType) (keytostr : GoKeyVal → String)
        (e1 e2 : List (GoKeyVal × GoValue)) (path : List String)
        (l1 : List (String × Option Value)),
      stringify kt = some keytostr → e1.Perm e2 →
      (e1.map fun p => keytostr p.1).Nodup →
      fromReflectValue (.mapV kt e1) path = .ok (some (.structV l1)) →
      ∃ l2, fromReflectValue (.mapV kt e2) path = .ok (some (.structV l2))
        ∧ l1.Perm l2)
    ∧ (∀ (kt : GoType) (keytostr : GoKeyVal → String) (k1 k2 : GoKeyVal)
        (path : List String),
      stringify kt = some keytostr → keytostr k1 = keytostr k2 →
      path.length < 998 →
      fromReflectValue (.mapV kt [(k1, .boolV true), (k2, .boolV false)]) path =
          .ok (some (.structV [(keytostr k2, some (.boolV false))]))
        ∧ fromReflectValue (.mapV kt [(k2, .boolV false), (k1, .boolV true)]) path =
          .ok (some (.structV [(keytostr k1, some (.boolV true))]))
        ∧ Value.structV [(keytostr k2, some (.boolV false))] ≠
            Value.structV [(keytostr k1, some (.boolV true))]) := by
  constructor
  · intro kt keytostr e1 e2 path l1 hst hperm hnodup hok
    by_cases hl : 1000 ≤ path.length
    · exfalso
      simp only [fromReflectValue] at hok
      rw [if_pos hl] at hok
      exact FvStep.noConfusion hok
    · simp only [fromReflectValue] at hok ⊢
      rw [if_neg hl] at hok ⊢
      rw [hst] at hok ⊢
      dsimp only at hok ⊢
      cases hfe : fvEntries keytostr e1 path [] with
      | ok l0 =>
          simp only [hfe] at hok
          simp only [FvStep.ok.injEq, Option.some.injEq, Value.structV.injEq] at hok
          subst hok
          have hall1 := fvEntries_all_ok keytostr path e1 [] l0 hfe
          have hall2 : ∀ p ∈ e2, ∃ v, entryRes keytostr path p = .ok v :=
            fun p hp => hall1 p (hperm.mem_iff.mpr hp)
          have hnodup2 : (e2.map fun p => keytostr p.1).Nodup :=
            ((hperm.map fun p => keytostr p.1).nodup_iff).mp hnodup
          have h1 := fvEntries_ok_of keytostr path e1 []
            hall1 (fun p _ => by simp) hnodup
          have h2 := fvEntries_ok_of keytostr path e2 []
            hall2 (fun p _ => by simp) hnodup2
          have hl0 : l0 = e1.map
              fun p => (keytostr p.1, okValue (entryRes keytostr path p)) := by
            have h3 := hfe.symm.trans h1
            simpa using h3
          refine ⟨e2.map fun p => (keytostr p.1, okValue (entryRes keytostr path p)),
            ?_, ?_⟩
          · simp only [h2, List.nil_append]
          · rw [hl0]
            exact hperm.map _
      | err e0 => simp only [hfe] at hok; exact FvStep.noConfusion hok
      | fatal m => simp only [hfe] at hok; exact FvStep.noConfusion hok
  · intro kt keytostr k1 k2 path hst hcol hl
    have hlen1 : (path ++ [".", keytostr k1]).length = path.length + 2 := by
      simp [List.length_append]
    have hlen2 : (path ++ [".", keytostr k2]).length = path.length + 2 := by
      simp [List.length_append]
    have hc1 : fromReflectValue (.boolV true) (path ++ [".", keytostr k1]) =
        .ok (some (.boolV true)) := by
      simp only [fromReflectValue]
      rw [if_neg (by omega)]
    have hc2 : fromReflectValue (.boolV false) (path ++ [".", keytostr k2]) =
        .ok (some (.boolV false)) := by
      simp only [fromReflectValue]
      rw [if_neg (by omega)]
    refine ⟨?_, ?_, ?_⟩
    · simp only [fromReflectValue]
      rw [if_neg (by omega), hst]
      dsimp only
      simp only [fvEntries, hc1, hc2, mapAssign]
      rw [if_pos hcol]
    · simp only [fromReflectValue]
      rw [if_neg (by omega), hst]
      dsimp only
      simp only [fvEntries, hc1, hc2, mapAssign]
      rw [if_pos hcol.symm]
    · intro hEq
      injection hEq with h2
      simp at h2

/-- Witness for the amended C8: both iteration orders of
`map[string]bool{"a": true, "b": false}` (distinct stringified keys) succeed
with the same Struct up to entry order; and at a colliding key pair — two
NaN float64 map keys, which both stringify to the same text (represented
here by the same NaN payload term) — the last-iterated entry wins. -/
theorem c8_amended_witness :
    (∃ l2,
      fromReflectValue
        (.mapV ⟨.string, "string"⟩ [(.s "b", .boolV false), (.s "a", .boolV true)]) [] =
        .ok (some (.structV l2))
      ∧ ([("a", some (Value.boolV true)), ("b", some (Value.boolV false))]).Perm l2)
    ∧ fromReflectValue
        (.mapV ⟨.float64, "float64"⟩
          [(.f (0.0 / 0.0), .boolV true), (.f (0.0 / 0.0), .boolV false)]) [] =
        .ok (some (.structV [(goKeyFloat (.f (0.0 / 0.0)), some (.boolV false))])) :=
  ⟨c8_amended.1 ⟨.string, "string"⟩ goKeyString
      [(.s "a", .boolV true), (.s "b", .boolV false)]
      [(.s "b", .boolV false), (.s "a", .boolV true)] []
      [("a", some (.boolV true)), ("b", some (.boolV false))]
      rfl (List.Perm.swap _ _ _) (by decide) rfl,
   (c8_amended.2 ⟨.float64, "float64"⟩ goKeyFloat
      (.f (0.0 / 0.0)) (.f (0.0 / 0.0)) [] rfl rfl (by decide)).1⟩

theorem insertKey_map {α β : Type} (f : α → β) (p : String × α)
    (l : List (String × α)) :
    insertKey (p.1, f p.2) (l.map (fun q => (q.1, f q.2))) =
      (insertKey p l).map (fun q => (q.1, f q.2)) := by
  induction l with
  | nil => rfl
  | cons q t ih =>
      by_cases h : p.1 ≤ q.1 <;> simp [insertKey, h, ih]

theorem sortKeys_map {α β : Type} (f : α → β) (l : List (String × α)) :
    sortKeys (l.map (fun q => (q.1, f q.2))) =
      (sortKeys l).map (fun q => (q.1, f q.2)) := by
  induction l with
  | nil => rfl
  | cons p t ih => simp [sortKeys, ih, insertKey_map]

theorem insertKey_perm {α : Type} (p : String × α) (l : List (String × α)) :
    (insertKey p l).Perm (p :: l) := by
  induction l with
  | nil => exact List.Perm.refl _
  | cons q t ih =>
      by_cases h : p.1 ≤ q.1
      · simp [insertKey, h]
      · simp only [insertKey, if_neg h]
        exact (ih.cons q).trans (List.Perm.swap _ _ _)

theorem sortKeys_perm {α : Type} (l : List (String × α)) :
    (sortKeys l).Perm l := by
  induction l with
  | nil => exact List.Perm.refl _
  | cons p t ih => exact (insertKey_perm p (sortKeys t)).trans (ih.cons p)

theorem insertKey_pairwise {α : Type} (p : String × α)
    {l : List (String × α)} (h : l.Pairwise keyLE) :
    (insertKey p l).Pairwise keyLE := by
  induction l with
  | nil => simp [insertKey, List.Pairwise]
  | cons q t ih =>
      rcases List.pairwise_cons.mp h with ⟨hq, ht⟩
      by_cases hpq : p.1 ≤ q.1
      · simp only [insertKey, if_pos hpq]
        refine List.Pairwise.cons ?_ h
        intro r hr
        rcases List.mem_cons.mp hr with rfl | hr
        · exact hpq
        · exact le_trans hpq (hq r hr)
      · simp only [insertKey, if_neg hpq]
        refine List.Pairwise.cons ?_ (ih ht)
        intro r hr
        rcases List.mem_cons.mp ((insertKey_perm p t).mem_iff.mp hr) with rfl | hr2
        · exact le_of_not_le hpq
        · exact hq r hr2

theorem sortKeys_pairwise {α : Type} (l : List (String × α)) :
    (sortKeys l).Pairwise keyLE := by
  induction l with
  | nil => simp [sortKeys, List.Pairwise]
  | cons p t ih => exact insertKey_pairwise p ih

theorem sortKeys_eq_of_pairwise {α : Type} :
    ∀ {l : List (String × α)}, l.Pairwise keyLE → sortKeys l = l := by
  intro l
  induction l with
  | nil => intro _; rfl
  | cons p t ih =>
      intro h
      rcases List.pairwise_cons.mp h with ⟨hp, ht⟩
      simp only [sortKeys, ih ht]
      cases t with
      | nil => rfl
      | cons q t2 =>
          have hpq : p.1 ≤ q.1 := hp q (List.mem_cons_self _ _)
          simp only [insertKey, if_pos hpq]

theorem sortKeys_idem {α : Type} (l : List (String × α)) :
    sortKeys (sortKeys l) = sortKeys l :=
  sortKeys_eq_of_pairwise (sortKeys_pairwise l)

theorem marshalFields_eq (l : List (String × Option Value)) :
    marshalFields l = l.map fun p => (p.1, marshalValue p.2) := by
  induction l with
  | nil => simp [marshalFields]
  | cons p t ih => cases p; simp [marshalFields, ih]

theorem marshalElems_eq (l : List (Option Value)) :
    marshalElems l = l.map marshalValue := by
  induction l with
  | nil => simp [marshalElems]
  | cons v t ih => simp [marshalElems, ih]

theorem unmFields_eq (l : List (String × Json)) :
    unmFields l = l.map fun p => (p.1, unmarshalAny p.2) := by
  induction l with
  | nil => rfl
  | cons p t ih => cases p; simp [unmFields, ih]

theorem unmElems_eq (l : List Json) :
    unmElems l = l.map unmarshalAny := by
  induction l with
  | nil => rfl
  | cons j t ih => simp [unmElems, ih]

theorem fastFields_eq (l : List (String × AnyV)) :
    fastFields l = l.map fun p => (p.1, fastFromValue p.2) := by
  induction l with
  | nil => rfl
  | cons p t ih => cases p; simp [fastFields, ih]

theorem fastElems_eq (l : List AnyV) :
    fastElems l = l.map fastFromValue := by
  induction l with
  | nil => rfl
  | cons v t ih => simp [fastElems, ih]

theorem normFields_eq (l : List (String × Option Value)) :
    normFields l = l.map fun p => (p.1, normalizeV p.2) := by
  induction l with
  | nil => simp [normFields]
  | cons p t ih => cases p; simp [normFields, ih]

theorem normElems_eq (l : List (Option Value)) :
    normElems l = l.map normalizeV := by
  induction l with
  | nil => simp [normElems]
  | cons v t ih => simp [normElems, ih]

theorem roundtrip_bounded :
    ∀ (n : Nat) (v : Option Value), sizeOf v ≤ n →
      fastFromValue (unmarshalAny (marshalValue v)) = normalizeV v := by
  intro n
  induction n with
  | zero =>
      intro v h
      cases v <;> simp_arith at h
  | succ n ih =>
      intro v h
      cases v with
      | none => simp only [marshalValue, unmarshalAny, fastFromValue, normalizeV]
      | some val =>
        cases val with
        | number x => simp only [marshalValue, unmarshalAny, fastFromValue, normalizeV]
        | str s => simp only [marshalValue, unmarshalAny, fastFromValue, normalizeV]
        | boolV b => simp only [marshalValue, unmarshalAny, fastFromValue, normalizeV]
        | arrayV elems =>
            have hb : ∀ x ∈ elems, sizeOf x ≤ n := by
              intro x hx
              have h1 := List.sizeOf_lt_of_mem hx
              have h2 : sizeOf (some (Value.arrayV elems)) = 2 + sizeOf elems := by
                simp_arith
              omega
            simp only [marshalValue, unmarshalAny, fastFromValue, normalizeV]
            rw [marshalElems_eq, unmElems_eq, fastElems_eq, normElems_eq,
              List.map_map, List.map_map]
            exact congrArg (fun l => some (Value.arrayV l))
              (List.map_congr_left (fun x hx => ih x (hb x hx)))
        | structV fields =>
            have hb : ∀ p ∈ fields, sizeOf p.2 ≤ n := by
              intro p hp
              have h1 := List.sizeOf_lt_of_mem hp
              have h2 : sizeOf (some (Value.structV fields)) = 2 + sizeOf fields := by
                simp_arith
              have h3 : sizeOf p.2 < sizeOf p := by
                cases p; simp_arith
              omega
            simp only [marshalValue, unmarshalAny, fastFromValue, normalizeV]
            rw [marshalFields_eq, unmFields_eq, fastFields_eq, normFields_eq,
              sortKeys_map marshalValue, List.map_map, List.map_map,
              sortKeys_map normalizeV]
            refine congrArg (fun l => some (Value.structV l))
              (List.map_congr_left ?_)
            intro p hp
            have hp2 : p ∈ fields := (sortKeys_perm fields).mem_iff.mp hp
            simp only [Function.comp]
            rw [ih p.2 (hb p hp2)]

/-- Decoding the encoding of a `Value` yields exactly its key-order
canonicalization: the encoder sorts Struct keys, and everything else is
carried through unchanged. -/
theorem roundtripV (v : Option Value) :
    fastFromValue (unmarshalAny (marshalValue v)) = normalizeV v :=
  roundtrip_bounded (sizeOf v) v (le_refl _)

theorem normalizeV_idem_bounded :
    ∀ (n : Nat) (v : Option Value), sizeOf v ≤ n →
      normalizeV (normalizeV v) = normalizeV v := by
  intro n
  induction n with
  | zero =>
      intro v h
      cases v <;> simp_arith at h
  | succ n ih =>
      intro v h
      cases v with
      | none => simp only [normalizeV]
      | some val =>
        cases val with
        | number x => simp only [normalizeV]
        | str s => simp only [normalizeV]
        | boolV b => simp only [normalizeV]
        | arrayV elems =>
            have hb : ∀ x ∈ elems, sizeOf x ≤ n := by
              intro x hx
              have h1 := List.sizeOf_lt_of_mem hx
              have h2 : sizeOf (some (Value.arrayV elems)) = 2 + sizeOf elems := by
                simp_arith
              omega
            simp only [normalizeV]
            rw [normElems_eq, normElems_eq, List.map_map]
            exact congrArg (fun l => some (Value.arrayV l))
              (List.map_congr_left (fun x hx => ih x (hb x hx)))
        | structV fields =>
            have hb : ∀ p ∈ fields, sizeOf p.2 ≤ n := by
              intro p hp
              have h1 := List.sizeOf_lt_of_mem hp
              have h2 : sizeOf (some (Value.structV fields)) = 2 + sizeOf fields := by
                simp_arith
              have h3 : sizeOf p.2 < sizeOf p := by
                cases p; simp_arith
              omega
            simp only [normalizeV]
            rw [normFields_eq, normFields_eq, ← sortKeys_map normalizeV,
              sortKeys_idem, List.map_map]
            refine congrArg (fun l => some (Value.structV (sortKeys l)))
              (List.map_congr_left ?_)
            intro p hp
            simp only [Function.comp]
            rw [ih p.2 (hb p hp)]

/-- Canonicalizing Struct key order is idempotent, so `normalizeV x =
normalizeV y` is an equivalence: structural equality ignoring Struct key
order. -/
theorem normalizeV_idem (v : Option Value) :
    normalizeV (normalizeV v) = normalizeV v :=
  normalizeV_idem_bounded (sizeOf v) v (le_refl _)

/-- C6: for every `Value` tree `v` (finite by construction), decoding the
JSON encoding of `v` with `FromJSON` succeeds (the encoder output is
well-formed, so the only possible `FromJSON` failure — a syntax error —
cannot occur) and returns a `Value` structurally equal to `v`: the two sides
coincide after canonicalizing Struct entry order (`normalizeV`), i.e. Struct
equality ignores key order while Array order is preserved throughout.  The
second conjunct records that canonicalization only permutes Struct entries. -/
theorem c6_json_roundtrip :
    (∀ v : Option Value, normalizeV (FromJSONDoc (marshalValue v)) = normalizeV v)
    ∧ ∀ (l : List (String × Option Value)), (sortKeys l).Perm l := by
  constructor
  · intro v
    show normalizeV (fastFromValue (unmarshalAny (marshalValue v))) = normalizeV v
    rw [roundtripV v]
    exact normalizeV_idem v
  · exact fun l => sortKeys_perm l

end Simple
